import Mathlib

set_option autoImplicit false
set_option maxRecDepth 8192

/-!
Verification of the revision graph / diff / mutation
engine of the `tatami` repository (`apps/desktop/src-tauri/src/repo/`) against its natural-language
specification.  Rust functions are shallowly embedded as Lean functions;
the external `jj_lib` store and the `similar` diff crate are abstracted as
explicit parameters, with their guaranteed behaviour modelled from the
specification where it matters.
-/

namespace Tatami

/-! ## Diff engine (`repo/diff.rs`) -/

namespace Diff

/-- Tag of one element of the diff change stream, mirroring
`similar::ChangeTag` as consumed by `compute_file_diff`. -/
inductive ChangeTag where
  | Delete
  | Insert
  | Equal
  deriving DecidableEq, Repr

/-- One element of the change stream produced by the line alignment.
The source strips the trailing newline from `change.to_string()`
(diff.rs line 37); `content` here is that newline-stripped line. -/
structure Change where
  tag : ChangeTag
  content : String
  deriving DecidableEq, Repr

/-- Embeds the `DiffLine` struct of diff.rs (lines 19-25). -/
structure DiffLine where
  line_type : String
  content : String
  old_line_number : Option Nat
  new_line_number : Option Nat
  deriving DecidableEq, Repr

/-- Embeds the `DiffHunk` struct of diff.rs (lines 10-17). -/
structure DiffHunk where
  old_start : Nat
  old_count : Nat
  new_start : Nat
  new_count : Nat
  lines : List DiffLine
  deriving DecidableEq, Repr

/-- Embeds the `FileDiff` struct of diff.rs (lines 4-8). -/
structure FileDiff where
  path : String
  hunks : List DiffHunk
  deriving DecidableEq, Repr

/-- Embeds the loop body of `compute_file_diff` (diff.rs lines 36-72):
walk the change stream carrying the two line-number counters, emitting one
`DiffLine` per change and advancing the counters by tag. -/
def diffLines : List Change → Nat → Nat → List DiffLine
  | [], _, _ => []
  | c :: rest, o, n =>
    match c.tag with
    | ChangeTag.Delete =>
      ⟨"remove", c.content, some o, none⟩ :: diffLines rest (o + 1) n
    | ChangeTag.Insert =>
      ⟨"add", c.content, none, some n⟩ :: diffLines rest o (n + 1)
    | ChangeTag.Equal =>
      ⟨"context", c.content, some o, some n⟩ :: diffLines rest (o + 1) (n + 1)

/-- Final values of the two counters `old_line_num`/`new_line_num` after the
loop of diff.rs lines 36-72, starting from the given initial values. -/
def finalCounters : List Change → Nat → Nat → Nat × Nat
  | [], o, n => (o, n)
  | c :: rest, o, n =>
    match c.tag with
    | ChangeTag.Delete => finalCounters rest (o + 1) n
    | ChangeTag.Insert => finalCounters rest o (n + 1)
    | ChangeTag.Equal => finalCounters rest (o + 1) (n + 1)

/-- Embeds `compute_file_diff` (diff.rs lines 27-86).  The external
`TextDiff::from_lines` alignment of the two byte buffers is abstracted as
the `changes` stream argument (see `ValidDiff` for the contract that stream
satisfies); both counters start at 1 and the function wraps the emitted
lines in a single whole-file hunk. -/
def compute_file_diff (changes : List Change) (path : String) : FileDiff :=
  let lines := diffLines changes 1 1
  let counters := finalCounters changes 1 1
  { path := path
    hunks := [{ old_start := 1
                old_count := counters.1 - 1
                new_start := 1
                new_count := counters.2 - 1
                lines := lines }] }

/-- Old-side projection of a change stream: contents of the Delete and Equal
changes in order.  For a correct alignment this is exactly the line list of the old file. -/
def oldSide (cs : List Change) : List String :=
  cs.filterMap fun c =>
    match c.tag with
    | ChangeTag.Insert => none
    | _ => some c.content

/-- New-side projection of a change stream: contents of the Insert and Equal
changes in order.  For a correct alignment this is exactly the line list of the new file. -/
def newSide (cs : List Change) : List String :=
  cs.filterMap fun c =>
    match c.tag with
    | ChangeTag.Delete => none
    | _ => some c.content

/-- Modelled from the spec: the external line-alignment (the LCS-based
`TextDiff::from_lines` of the `similar` crate, spec section 4.4 "any correct LCS/Myers
diff implementation qualifies") returns a change stream whose Delete+Equal
contents are the lines of the old file in order and whose Insert+Equal
contents are the lines of the new file in order. -/
def ValidDiff (oldLines newLines : List String) (cs : List Change) : Prop :=
  oldSide cs = oldLines ∧ newSide cs = newLines

/-- Boolean check that a `DiffLine` is well-typed in the sense of the section 3 invariant of the spec: context lines carry both line numbers, removed lines
only an old number, added lines only a new number. -/
def lineTypeOk (l : DiffLine) : Bool :=
  (l.line_type == "context" && l.old_line_number.isSome && l.new_line_number.isSome) ||
  (l.line_type == "remove" && l.old_line_number.isSome && l.new_line_number.isNone) ||
  (l.line_type == "add" && l.old_line_number.isNone && l.new_line_number.isSome)

/-- Contents of the lines that exist on the old side (context and removed
lines), in hunk order. -/
def oldContents (ls : List DiffLine) : List String :=
  ls.filterMap fun l => if l.old_line_number.isSome then some l.content else none

/-- Applying the operations of the diff at line level: keep every line that
exists on the new side (context lines stay, added lines are inserted at
their new position, removed lines are dropped), in hunk order. -/
def applyLines (ls : List DiffLine) : List String :=
  ls.filterMap fun l => if l.new_line_number.isSome then some l.content else none

/-- Result of applying all hunks of a `FileDiff` as in `applyLines`. -/
def applyFileDiff (fd : FileDiff) : List String :=
  (fd.hunks.map fun h => applyLines h.lines).flatten

lemma diffLines_filterMap_old (cs : List Change) (o n : Nat) :
    (diffLines cs o n).filterMap (fun l => l.old_line_number) =
      List.range' o (oldSide cs).length := by
  induction cs generalizing o n with
  | nil => simp [diffLines, oldSide]
  | cons c rest ih =>
    obtain ⟨tag, content⟩ := c
    cases tag <;>
      simp [diffLines, oldSide, List.filterMap_cons, ih, List.range'_succ]

lemma diffLines_filterMap_new (cs : List Change) (o n : Nat) :
    (diffLines cs o n).filterMap (fun l => l.new_line_number) =
      List.range' n (newSide cs).length := by
  induction cs generalizing o n with
  | nil => simp [diffLines, newSide]
  | cons c rest ih =>
    obtain ⟨tag, content⟩ := c
    cases tag <;>
      simp [diffLines, newSide, List.filterMap_cons, ih, List.range'_succ]

lemma diffLines_oldContents (cs : List Change) (o n : Nat) :
    oldContents (diffLines cs o n) = oldSide cs := by
  induction cs generalizing o n with
  | nil => simp [diffLines, oldContents, oldSide]
  | cons c rest ih =>
    obtain ⟨tag, content⟩ := c
    simp only [oldContents, oldSide] at ih ⊢
    cases tag <;>
      simp [diffLines, List.filterMap_cons, ih]

lemma diffLines_applyLines (cs : List Change) (o n : Nat) :
    applyLines (diffLines cs o n) = newSide cs := by
  induction cs generalizing o n with
  | nil => simp [diffLines, applyLines, newSide]
  | cons c rest ih =>
    obtain ⟨tag, content⟩ := c
    simp only [applyLines, newSide] at ih ⊢
    cases tag <;>
      simp [diffLines, List.filterMap_cons, ih]

lemma diffLines_typeOk (cs : List Change) (o n : Nat) :
    (diffLines cs o n).all lineTypeOk = true := by
  induction cs generalizing o n with
  | nil => simp [diffLines]
  | cons c rest ih =>
    obtain ⟨tag, content⟩ := c
    cases tag <;> simp [diffLines, lineTypeOk, ih]

lemma diffLines_filter_old_length (cs : List Change) (o n : Nat) :
    ((diffLines cs o n).filter fun l => l.old_line_number.isSome).length =
      (oldSide cs).length := by
  induction cs generalizing o n with
  | nil => simp [diffLines, oldSide]
  | cons c rest ih =>
    obtain ⟨tag, content⟩ := c
    cases tag <;> simp [diffLines, oldSide, List.filterMap_cons, ih]

lemma diffLines_filter_new_length (cs : List Change) (o n : Nat) :
    ((diffLines cs o n).filter fun l => l.new_line_number.isSome).length =
      (newSide cs).length := by
  induction cs generalizing o n with
  | nil => simp [diffLines, newSide]
  | cons c rest ih =>
    obtain ⟨tag, content⟩ := c
    cases tag <;> simp [diffLines, newSide, List.filterMap_cons, ih]

lemma finalCounters_eq (cs : List Change) (o n : Nat) :
    finalCounters cs o n = (o + (oldSide cs).length, n + (newSide cs).length) := by
  induction cs generalizing o n with
  | nil => simp [finalCounters, oldSide, newSide]
  | cons c rest ih =>
    obtain ⟨tag, content⟩ := c
    cases tag <;>
      · simp [finalCounters, oldSide, newSide, List.filterMap_cons, ih]
        omega

/-- Concrete change stream used to instantiate the round-trip theorem:
aligns old file ["a", "b"] with new file ["a", "c"]. -/
def c8changes : List Change :=
  [⟨ChangeTag.Equal, "a"⟩, ⟨ChangeTag.Delete, "b"⟩, ⟨ChangeTag.Insert, "c"⟩]

/-- C6: every hunk produced by `compute_file_diff`, for an arbitrary change
stream (covering arbitrary byte-buffer pairs, including an empty old side
and an empty new side), has well-typed lines — context lines carry both an
old and a new number, remove lines only an old number, add lines only a new
number — and the old (resp. new) line numbers across the lines of the hunk are
exactly 1, 2, 3, ... in order, hence strictly increasing starting at 1. -/
theorem claim_C6 (changes : List Change) (path : String) :
    ∃ h, (compute_file_diff changes path).hunks = [h] ∧
      h.lines.all lineTypeOk = true ∧
      h.lines.filterMap (fun l => l.old_line_number) =
        List.range' 1 (oldSide changes).length ∧
      h.lines.filterMap (fun l => l.new_line_number) =
        List.range' 1 (newSide changes).length :=
  ⟨_, rfl, diffLines_typeOk changes 1 1,
    diffLines_filterMap_old changes 1 1, diffLines_filterMap_new changes 1 1⟩

/-- C7: for every change stream (i.e. every pair of input buffers),
`compute_file_diff` returns exactly one hunk with `old_start = 1` and
`new_start = 1`, whose `old_count` is the number of lines carrying an old
line number (the whole old file) and whose `new_count` is the number of
lines carrying a new line number (the whole new file). -/
theorem claim_C7 (changes : List Change) (path : String) :
    ∃ h, (compute_file_diff changes path).hunks = [h] ∧
      h.old_start = 1 ∧ h.new_start = 1 ∧
      h.old_count = (h.lines.filter fun l => l.old_line_number.isSome).length ∧
      h.new_count = (h.lines.filter fun l => l.new_line_number.isSome).length ∧
      h.old_count = (oldSide changes).length ∧
      h.new_count = (newSide changes).length := by
  refine ⟨_, rfl, rfl, rfl, ?_, ?_, ?_, ?_⟩ <;>
    simp [compute_file_diff, finalCounters_eq,
      diffLines_filter_old_length, diffLines_filter_new_length]

/-- C8: for every pair of line lists A and B and every valid alignment
between them, applying the operations of `compute_file_diff` to A — keeping
context lines, dropping each remove line, inserting each add line at its
new position — reconstructs B exactly; moreover the lines carrying old
numbers are exactly A, so the removals happen at their correct old
positions. -/
theorem claim_C8 (oldLines newLines : List String) (changes : List Change)
    (path : String) (h : ValidDiff oldLines newLines changes) :
    applyFileDiff (compute_file_diff changes path) = newLines ∧
    ∀ hk ∈ (compute_file_diff changes path).hunks,
      oldContents hk.lines = oldLines := by
  obtain ⟨hold, hnew⟩ := h
  constructor
  · simp [applyFileDiff, compute_file_diff, diffLines_applyLines, hnew]
  · intro hk hmem
    simp only [compute_file_diff, List.mem_singleton] at hmem
    subst hmem
    simp [diffLines_oldContents, hold]

/-- Witness for C8 at the concrete alignment of ["a", "b"] with
["a", "c"]. -/
theorem claim_C8_witness :
    applyFileDiff (compute_file_diff c8changes "f") = ["a", "c"] ∧
    ∀ hk ∈ (compute_file_diff c8changes "f").hunks,
      oldContents hk.lines = ["a", "b"] :=
  claim_C8 ["a", "b"] ["a", "c"] c8changes "f" (by constructor <;> decide)

end Diff

/-! ## Log query and graph annotator (`repo/log.rs`) -/

namespace Log

/-- Embeds fetch_log lines 134-136: the "immutable" revset the code
evaluates is `RevsetExpression::root()`.  Modelled from the spec: the
`root()` revset function evaluates to exactly the root commit of the repository,
so the collected id list is the singleton of the root commit id. -/
def immutableIds (rootId : Nat) : List Nat := [rootId]

/-- Embeds the per-commit flag computation
`immutable_ids.contains(&commit_id)` of fetch_log line 177. -/
def is_immutable (rootId commit_id : Nat) : Bool :=
  (immutableIds rootId).contains commit_id

/-- Modelled from the spec: fuelled ancestry test over an abstract parent
function; `isAncestorB parents fuel a d` decides whether `a` is an ancestor
of (or equal to) `d`. -/
def isAncestorB (parents : Nat → List Nat) : Nat → Nat → Nat → Bool
  | 0, a, d => a == d
  | fuel + 1, a, d => a == d || (parents d).any fun p => isAncestorB parents fuel a p

/-- Modelled from the spec: "`is_immutable`: commit id is an ancestor of
the repository root or of the configured immutable-heads expression (trunk
∪ tags ∪ untracked remote bookmarks)".  `heads` is the evaluated
immutable-heads set. -/
def specIsImmutable (parents : Nat → List Nat) (fuel rootId : Nat)
    (heads : List Nat) (c : Nat) : Bool :=
  isAncestorB parents fuel c rootId || heads.any fun h => isAncestorB parents fuel c h

/-- Parent function of the linear three-commit history A(0) → B(1) → C(2),
with A the repository root and C the trunk head. -/
def parentsABC : Nat → List Nat :=
  fun n => if n = 1 then [0] else if n = 2 then [1] else []

/-- Divergence-related fields of the `Revision` record produced by
fetch_log: the full formatted change id, the divergence flag, the
divergence index, and the short display id (log.rs lines 218-235). -/
structure DivOut where
  change_id : String
  is_divergent : Bool
  divergent_index : Option Nat
  change_id_short : String
  deriving DecidableEq, Repr

/-- Short display id of log.rs lines 230-235: the first `plen` characters
of the full formatted change id, with a "/index" suffix appended for
divergent changes. -/
def shortId (full : String) (plen : Nat) (didx : Option Nat) : String :=
  match didx with
  | some i => full.take plen ++ "/" ++ toString i
  | none => full.take plen

/-- Embeds the second pass of fetch_log, restricted to the divergence fields
(log.rs lines 169-235): walk the formatted change ids in result order
carrying the `divergent_indices` map `st` (every entry starting at 0 via
`or_insert(0)` and bumped after being read); `counts` is the occurrence
count computed by the first pass and `plen` the shortest-unique-id length
delivered by the store per change id. -/
def divGo (plen : String → Nat) (counts : String → Nat) :
    List String → (String → Nat) → List DivOut
  | [], _ => []
  | cid :: rest, st =>
    if 1 < counts cid then
      ⟨cid, true, some (st cid), shortId cid (plen cid) (some (st cid))⟩ ::
        divGo plen counts rest fun s => if s = cid then st cid + 1 else st s
    else
      ⟨cid, false, none, shortId cid (plen cid) none⟩ :: divGo plen counts rest st

/-- Embeds the divergence detection of fetch_log (log.rs lines 157-166 and
218-235): `all` is the list of formatted change ids of the fetched commits
in result order; the HashMap of the first pass holds, for each id, its number of
occurrences in `all` (the `unwrap_or(1)` default never fires because every
queried id was itself counted). -/
def annotateDivergence (plen : String → Nat) (all : List String) : List DivOut :=
  divGo plen (fun s => all.count s) all fun _ => 0

lemma divGo_spec (plen counts : String → Nat) (l : List String)
    (st : String → Nat) (s : String) :
    ((divGo plen counts l st).filter fun o => o.change_id == s).map
        (fun o => (o.is_divergent, o.divergent_index, o.change_id_short)) =
      (List.range' (st s) (l.count s)).map fun m =>
        if 1 < counts s then
          (true, some m, shortId s (plen s) (some m))
        else (false, none, shortId s (plen s) none) := by
  induction l generalizing st with
  | nil => simp [divGo]
  | cons cid rest ih =>
    by_cases hs : cid = s
    · subst hs
      have hcount : (cid :: rest).count cid = rest.count cid + 1 := by
        simp [List.count_cons]
      by_cases hdiv : 1 < counts cid
      · simp only [divGo, hdiv, if_true, hcount, List.range'_succ]
        rw [List.filter_cons_of_pos (by simp), List.map_cons, List.map_cons]
        have htail := ih (fun t => if t = cid then st cid + 1 else st t)
        have hcc : (if cid = cid then st cid + 1 else st cid) = st cid + 1 :=
          if_pos rfl
        rw [hcc] at htail
        simp [htail, hdiv]
      · simp only [divGo, hdiv, if_false, hcount, List.range'_succ]
        rw [List.filter_cons_of_pos (by simp), List.map_cons, List.map_cons]
        have htail := ih st
        simp only [htail, hdiv, if_false]
        simp [List.map_const']
    · have hcount : (cid :: rest).count s = rest.count s := by
        simp [List.count_cons, hs, Ne.symm hs]
      by_cases hdiv : 1 < counts cid
      · simp only [divGo, hdiv, if_true, hcount]
        rw [List.filter_cons_of_neg (by simp [hs])]
        have htail := ih (fun t => if t = cid then st cid + 1 else st t)
        have hcc : (if s = cid then st cid + 1 else st s) = st s :=
          if_neg (Ne.symm hs)
        rw [hcc] at htail
        exact htail
      · simp only [divGo, hdiv, if_false, hcount]
        rw [List.filter_cons_of_neg (by simp [hs])]
        exact ih st

end Log

/-! ## Change id codec (`repo/log.rs` and `repo/status.rs`) -/

namespace Log

/-- Embeds the loop of `format_change_id` (log.rs lines 264-269): for each
byte push the character for the high nibble and then the one for the low
nibble, each computed as char code 122 (the code of the letter z) minus the
nibble value. -/
def formatGo : List (Fin 256) → String → String
  | [], acc => acc
  | b :: rest, acc =>
    formatGo rest
      ((acc.push (Char.ofNat (122 - (b.val >>> 4)))).push
        (Char.ofNat (122 - (b.val &&& 15))))

/-- Embeds `format_change_id` (log.rs lines 261-271): iterate over the first
six bytes of the change id (`&bytes[..6]`; the Rust slice panics on fewer
than six bytes, so the model takes the first six and the claims assume a
length of at least six), pushing two characters per byte into an initially
empty string. -/
def format_change_id (bytes : List (Fin 256)) : String :=
  formatGo (bytes.take 6) ""

/-- Character pair contributed by one byte: the letter z minus the high
nibble value, then the letter z minus the low nibble value. -/
def nibbleChars (b : Fin 256) : List Char :=
  [Char.ofNat (122 - (b.val >>> 4)), Char.ofNat (122 - (b.val &&& 15))]

lemma formatGo_data (l : List (Fin 256)) (acc : String) :
    (formatGo l acc).data = acc.data ++ l.flatMap nibbleChars := by
  induction l generalizing acc with
  | nil => simp [formatGo]
  | cons b rest ih =>
    simp [formatGo, ih, String.push, nibbleChars, List.flatMap_cons]

lemma flatMap_nibbleChars_length (l : List (Fin 256)) :
    (l.flatMap nibbleChars).length = 2 * l.length := by
  induction l with
  | nil => simp
  | cons b rest ih =>
    simp [List.flatMap_cons, nibbleChars, ih]
    omega

lemma nibbleChars_isLower : ∀ b : Fin 256,
    (nibbleChars b).all Char.isLower = true := by decide

end Log

namespace Status

/-- Embeds the loop of the `format_change_id` copy in status.rs
(lines 94-99), textually identical to the one in log.rs. -/
def formatGo : List (Fin 256) → String → String
  | [], acc => acc
  | b :: rest, acc =>
    formatGo rest
      ((acc.push (Char.ofNat (122 - (b.val >>> 4)))).push
        (Char.ofNat (122 - (b.val &&& 15))))

/-- Embeds the `format_change_id` copy in status.rs (lines 91-101). -/
def format_change_id (bytes : List (Fin 256)) : String :=
  formatGo (bytes.take 6) ""

lemma formatGo_agree (l : List (Fin 256)) :
    ∀ acc : String, formatGo l acc = Log.formatGo l acc := by
  induction l with
  | nil => intro acc; rfl
  | cons b rest ih =>
    intro acc
    simp only [formatGo, Log.formatGo]
    exact ih _

end Status

/-! ## Mutation engine (`repo/jj.rs`) -/

namespace Jj

/-- Result of the change-id resolution by the store, mirroring the jj-lib
resolution outcome consumed by `resolve_change_id`: a single matching
change id carrying the list of its live commit ids, no match, or a prefix
matching more than one change id. -/
inductive ChangeIdResolution where
  | SingleMatch (commit_ids : List Nat)
  | NoMatch
  | AmbiguousMatch
  deriving DecidableEq, Repr

/-- Embeds `JjRepo::resolve_change_id` (jj.rs lines 146-165); the store
call `repo.resolve_change_id_prefix` is abstracted as the already-computed
`resolution` argument.  A single match yields its first commit id
(`commit_ids.first()`), no match and an ambiguous prefix are errors. -/
def resolve_change_id (resolution : ChangeIdResolution) : Except String Nat :=
  match resolution with
  | ChangeIdResolution.SingleMatch commit_ids =>
    match commit_ids.head? with
    | some c => Except.ok c
    | none => Except.error "No commit ID found"
  | ChangeIdResolution.NoMatch => Except.error "Change ID not found"
  | ChangeIdResolution.AmbiguousMatch => Except.error "Ambiguous change ID prefix"

/-- Commit record held by the abstract store: ordered parent commit ids and
the tree id, the attributes `new_revision` and `edit_revision` read and
write. -/
structure CommitRec where
  parents : List Nat
  tree : Nat
  deriving DecidableEq, Repr

/-- Modelled from the spec: the abstract repository state the mutation
engine acts on — the commit store (id to record), the single working-copy
pointer of the View, and a source of fresh commit ids for newly written
commits. -/
structure RepoState where
  store : List (Nat × CommitRec)
  wc : Option Nat
  nextId : Nat
  deriving DecidableEq, Repr

/-- Store lookup `repo.store().get_commit(id)` against the abstract
state. -/
def get_commit (st : RepoState) (id : Nat) : Option CommitRec :=
  (st.store.find? fun p => p.1 == id).map Prod.snd

/-- One working-copy checkout request issued to the external store:
the previous working-copy tree (the from state) and the commit being
checked out. -/
structure Checkout where
  fromTree : Nat
  toCommit : Nat
  deriving DecidableEq, Repr

/-- Abstracted collaborator behaviour for one mutation call: the change-id
resolution by the store per textual reference, and whether the transaction
commit and the checkout succeed. -/
structure Env where
  resolve : String → ChangeIdResolution
  txFails : Bool
  checkoutFails : Bool

/-- Outcome of a mutation call: the returned result, the repository state
after the call (unchanged unless the transaction was committed), and the
checkout requests issued to the working copy. -/
structure MutResult where
  outcome : Except String Unit
  state : RepoState
  checkouts : List Checkout
  deriving Repr

/-- Embeds the parent-resolution loop of `new_revision` (jj.rs lines
176-182): resolve each textual reference and fetch the commit, aborting on
the first failure, keeping argument order. -/
def resolveParents (env : Env) (st : RepoState) :
    List String → Except String (List (Nat × CommitRec))
  | [] => Except.ok []
  | ref :: rest =>
    match resolve_change_id (env.resolve ref) with
    | Except.error e => Except.error e
    | Except.ok cid =>
      match get_commit st cid with
      | none => Except.error "Failed to get commit"
      | some c =>
        match resolveParents env st rest with
        | Except.error e => Except.error e
        | Except.ok cs => Except.ok ((cid, c) :: cs)

/-- Embeds `new_revision` (jj.rs lines 171-223) with explicit state
passing: resolve the parents, take the tree of the first parent, buffer a new
commit with those parents and that tree plus the working-copy pointer
update in the transaction, read the old working-copy tree from the
pre-transaction view, then commit the transaction and issue the checkout.
The repository state changes only when the transaction commit succeeds;
in-transaction buffered writes (`new_commit(..).write()`, `set_wc_commit`)
are modelled as succeeding, per the in-memory transaction model of the spec. -/
def new_revision (env : Env) (st : RepoState)
    (parent_change_ids : List String) : MutResult :=
  match resolveParents env st parent_change_ids with
  | Except.error e => ⟨Except.error e, st, []⟩
  | Except.ok parent_commits =>
    match parent_commits.head? with
    | none => ⟨Except.error "No parent commits provided", st, []⟩
    | some first =>
      match st.wc with
      | none => ⟨Except.error "No working copy commit", st, []⟩
      | some wcId =>
        match get_commit st wcId with
        | none => ⟨Except.error "Failed to get old commit", st, []⟩
        | some old_commit =>
          if env.txFails then
            ⟨Except.error "Transaction commit failed", st, []⟩
          else
            let newId := st.nextId
            let st2 : RepoState :=
              { store := (newId, ⟨parent_commits.map Prod.fst, first.2.tree⟩) :: st.store
                wc := some newId
                nextId := newId + 1 }
            if env.checkoutFails then
              ⟨Except.error "Failed to check out new commit", st2,
                [⟨old_commit.tree, newId⟩]⟩
            else
              ⟨Except.ok (), st2, [⟨old_commit.tree, newId⟩]⟩

/-- Embeds `edit_revision` (jj.rs lines 225-258) with explicit state
passing: resolve the target reference, buffer the working-copy pointer
update, read the old working-copy tree from the pre-transaction view, then
commit the transaction and issue the checkout. -/
def edit_revision (env : Env) (st : RepoState) (change_id : String) : MutResult :=
  match resolve_change_id (env.resolve change_id) with
  | Except.error e => ⟨Except.error e, st, []⟩
  | Except.ok cid =>
    match get_commit st cid with
    | none => ⟨Except.error "Failed to get commit", st, []⟩
    | some _ =>
      match st.wc with
      | none => ⟨Except.error "No working copy commit", st, []⟩
      | some wcId =>
        match get_commit st wcId with
        | none => ⟨Except.error "Failed to get old commit", st, []⟩
        | some old_commit =>
          if env.txFails then
            ⟨Except.error "Transaction commit failed", st, []⟩
          else
            let st2 : RepoState := { st with wc := some cid }
            if env.checkoutFails then
              ⟨Except.error "Failed to check out commit", st2,
                [⟨old_commit.tree, cid⟩]⟩
            else
              ⟨Except.ok (), st2, [⟨old_commit.tree, cid⟩]⟩

lemma resolveParents_error_of_mem (env : Env) (st : RepoState)
    (refs : List String) (r : String) (e : String) (hmem : r ∈ refs)
    (hres : resolve_change_id (env.resolve r) = Except.error e) :
    ∃ e2, resolveParents env st refs = Except.error e2 := by
  induction refs with
  | nil => cases hmem
  | cons ref rest ih =>
    rcases List.mem_cons.mp hmem with hhead | htail
    · subst hhead
      exact ⟨e, by simp [resolveParents, hres]⟩
    · cases hcur : resolve_change_id (env.resolve ref) with
      | error e3 => exact ⟨e3, by simp [resolveParents, hcur]⟩
      | ok cid =>
        cases hget : get_commit st cid with
        | none =>
          exact ⟨"Failed to get commit", by simp [resolveParents, hcur, hget]⟩
        | some c =>
          obtain ⟨e2, h2⟩ := ih htail
          exact ⟨e2, by simp [resolveParents, hcur, hget, h2]⟩

end Jj

/-! ## Revset resolution entry point (`repo/log.rs` lines 329-430) -/

namespace Revset

/-- Embeds the `RevsetResult` struct of log.rs (lines 322-326). -/
structure RevsetResult where
  change_ids : List String
  error : Option String
  deriving DecidableEq, Repr

/-- Abstracted collaborator behaviour for one `resolve_revset` call: the
combined outcome of `JjRepo::open` and `load_at_head`, the outcomes of
parse, symbol resolution and evaluation for the given query, the iterated
revset items (each itself fallible), and the per-commit store lookup,
returning the formatted change id of the commit. -/
structure RevsetEnv where
  openRes : Except String Unit
  parseRes : Except String Unit
  resolveRes : Except String Unit
  evalRes : Except String (List (Except String Nat))
  getCommit : Nat → Except String String

/-- Embeds the collection loop of `resolve_revset` (log.rs lines 410-424):
push the formatted change id of each resolved commit; an errored iteration item
becomes a structured result with an empty id list, while a failing store
lookup propagates as an error (the `?` operator on `get_commit`). -/
def collectIds (get : Nat → Except String String) :
    List (Except String Nat) → List String → Except String RevsetResult
  | [], acc => Except.ok ⟨acc, none⟩
  | item :: rest, acc =>
    match item with
    | Except.ok cid =>
      match get cid with
      | Except.error e => Except.error e
      | Except.ok cidStr => collectIds get rest (acc ++ [cidStr])
    | Except.error e => Except.ok ⟨[], some ("Iteration error: " ++ e)⟩

/-- Embeds `resolve_revset` (log.rs lines 329-430): failures of opening or
loading the repository propagate as errors (`?`); parse, resolve and
evaluation failures are returned as data in the `error` field with an empty
id list; then the iterated items are collected. -/
def resolve_revset (env : RevsetEnv) : Except String RevsetResult :=
  match env.openRes with
  | Except.error e => Except.error e
  | Except.ok _ =>
    match env.parseRes with
    | Except.error e => Except.ok ⟨[], some ("Parse error: " ++ e)⟩
    | Except.ok _ =>
      match env.resolveRes with
      | Except.error e => Except.ok ⟨[], some ("Resolve error: " ++ e)⟩
      | Except.ok _ =>
        match env.evalRes with
        | Except.error e => Except.ok ⟨[], some ("Evaluation error: " ++ e)⟩
        | Except.ok items => collectIds env.getCommit items []

lemma collectIds_isOk (get : Nat → Except String String)
    (hget : ∀ c, (get c).isOk = true) (items : List (Except String Nat)) :
    ∀ acc, ∃ r, collectIds get items acc = Except.ok r := by
  induction items with
  | nil => intro acc; exact ⟨⟨acc, none⟩, rfl⟩
  | cons item rest ih =>
    intro acc
    cases item with
    | error e => exact ⟨⟨[], some ("Iteration error: " ++ e)⟩, rfl⟩
    | ok cid =>
      cases hc : get cid with
      | error e =>
        have hbad := hget cid
        rw [hc] at hbad
        simp [Except.isOk, Except.toBool] at hbad
      | ok cidStr =>
        obtain ⟨r, hr⟩ := ih (acc ++ [cidStr])
        exact ⟨r, by simp [collectIds, hc, hr]⟩

lemma collectIds_iter_error (get : Nat → Except String String) (e : String)
    (pre post : List (Except String Nat))
    (hpre : ∀ x ∈ pre, ∃ c s, x = Except.ok c ∧ get c = Except.ok s) :
    ∀ acc, collectIds get (pre ++ Except.error e :: post) acc =
      Except.ok ⟨[], some ("Iteration error: " ++ e)⟩ := by
  induction pre with
  | nil => intro acc; rfl
  | cons x rest ih =>
    intro acc
    obtain ⟨c, s, hx, hg⟩ := hpre x (List.mem_cons_self x rest)
    have hrest : ∀ y ∈ rest, ∃ c s, y = Except.ok c ∧ get c = Except.ok s :=
      fun y hy => hpre y (List.mem_cons_of_mem x hy)
    subst hx
    simp [collectIds, hg, ih hrest]

end Revset

/-! ## Claims about the log annotator -/

/-- C1 counterexample: on the linear history A(0) → B(1) → C(2) with A the
repository root and C the trunk head, the spec-side immutability predicate
(ancestor of the root or of the immutable heads) holds for all of A, B and
C, but the flag computed by fetch_log — membership in the evaluation of the
`root()` revset — is false for B and C.  This refutes the claim that the
flag is true exactly for ancestors of the root or of the immutable heads. -/
theorem claim_C1_counterexample :
    Log.specIsImmutable Log.parentsABC 3 0 [2] 0 = true ∧
    Log.specIsImmutable Log.parentsABC 3 0 [2] 1 = true ∧
    Log.specIsImmutable Log.parentsABC 3 0 [2] 2 = true ∧
    Log.is_immutable 0 0 = true ∧
    Log.is_immutable 0 1 = false ∧
    Log.is_immutable 0 2 = false := by decide

/-- C1 amended: the is_immutable flag emitted by fetch_log is true exactly
when the commit id is the repository root commit (the code evaluates only
the `root()` revset as its immutable set); in particular, in the linear
history A(0) → B(1) → C(2) with root A and trunk C, only A is reported
immutable. -/
theorem claim_C1_amended (rootId c : Nat) :
    Log.is_immutable rootId c = decide (c = rootId) := by
  by_cases h : c = rootId <;>
    simp [Log.is_immutable, Log.immutableIds, h, Ne.symm]

/-- C2: in the output of fetch_log, for every change id the occurrences in
result order are annotated as follows — with n the number of occurrences in
the full result, each occurrence is divergent iff n > 1, the i-th
occurrence (0-based, in result order) gets divergent_index i and short id
"{first plen chars}/{i}", and a unique occurrence gets is_divergent =
false, no index, and the bare short id. -/
theorem claim_C2 (plen : String → Nat) (all : List String) (s : String) :
    ((Log.annotateDivergence plen all).filter fun o => o.change_id == s).map
        (fun o => (o.is_divergent, o.divergent_index, o.change_id_short)) =
      (List.range (all.count s)).map fun i =>
        if 1 < all.count s then
          (true, some i, s.take (plen s) ++ "/" ++ toString i)
        else (false, none, s.take (plen s)) := by
  have h := Log.divGo_spec plen (fun t => all.count t) all (fun _ => 0) s
  simpa [Log.annotateDivergence, Log.shortId, List.range_eq_range'] using h

/-! ## Claims about the change id codec -/

/-- C9: for every change id of at least six bytes, format_change_id
consumes exactly the first six bytes (the result equals the result on the
truncated input, and its characters are determined by those six bytes),
returns a twelve-character lowercase string in which each byte contributes
the character for its high nibble and then the one for its low nibble, each
mapped to the letter z minus the nibble value; and the two textual copies
of the function (log.rs and status.rs) agree on every input. -/
theorem claim_C9 (bytes : List (Fin 256)) (h : 6 ≤ bytes.length) :
    (Log.format_change_id bytes).length = 12 ∧
    Log.format_change_id bytes = Log.format_change_id (bytes.take 6) ∧
    (Log.format_change_id bytes).data = (bytes.take 6).flatMap Log.nibbleChars ∧
    (∀ c ∈ (Log.format_change_id bytes).data, c.isLower = true) ∧
    Log.format_change_id bytes = Status.format_change_id bytes := by
  have hdata : (Log.format_change_id bytes).data =
      (bytes.take 6).flatMap Log.nibbleChars := by
    simpa using Log.formatGo_data (bytes.take 6) ""
  refine ⟨?_, ?_, hdata, ?_, ?_⟩
  · have hlen : (Log.format_change_id bytes).length =
        (Log.format_change_id bytes).data.length := rfl
    rw [hlen, hdata, Log.flatMap_nibbleChars_length, List.length_take]
    omega
  · simp [Log.format_change_id, List.take_take]
  · intro c hc
    rw [hdata] at hc
    obtain ⟨b, _, hcb⟩ := List.mem_flatMap.mp hc
    have hall := Log.nibbleChars_isLower b
    rw [List.all_eq_true] at hall
    exact hall c hcb
  · exact (Status.formatGo_agree (bytes.take 6) "").symm

/-- Concrete seven-byte change id used to instantiate the codec theorem. -/
def c9bytes : List (Fin 256) := [0, 1, 255, 16, 32, 5, 9]

/-- Witness for C9 at a concrete seven-byte input. -/
theorem claim_C9_witness :
    (Log.format_change_id c9bytes).length = 12 ∧
    Log.format_change_id c9bytes = Log.format_change_id (c9bytes.take 6) ∧
    (Log.format_change_id c9bytes).data = (c9bytes.take 6).flatMap Log.nibbleChars ∧
    (∀ c ∈ (Log.format_change_id c9bytes).data, c.isLower = true) ∧
    Log.format_change_id c9bytes = Status.format_change_id c9bytes :=
  claim_C9 c9bytes (by decide)

/-! ## Claims about the mutation engine -/

/-- C3: when new_revision is called with a non-empty list of parent change
references that all resolve, the working copy exists, and the transaction
and checkout succeed, the newly written commit (stored under the fresh id)
has the tree of the first resolved parent and exactly the resolved parent
commits, in argument order, as parents, and the working-copy pointer of the
View afterwards equals the id of the new commit. -/
theorem claim_C3 (env : Jj.Env) (st : Jj.RepoState) (refs : List String)
    (p : Nat × Jj.CommitRec) (rest : List (Nat × Jj.CommitRec))
    (w : Nat) (oldc : Jj.CommitRec)
    (hres : Jj.resolveParents env st refs = Except.ok (p :: rest))
    (hwc : st.wc = some w)
    (hold : Jj.get_commit st w = some oldc)
    (htx : env.txFails = false)
    (hco : env.checkoutFails = false) :
    (Jj.new_revision env st refs).outcome = Except.ok () ∧
    Jj.get_commit (Jj.new_revision env st refs).state st.nextId =
      some ⟨(p :: rest).map Prod.fst, p.2.tree⟩ ∧
    (Jj.new_revision env st refs).state.wc = some st.nextId := by
  have hnew : Jj.new_revision env st refs =
      ⟨Except.ok (),
        ⟨(st.nextId, ⟨(p :: rest).map Prod.fst, p.2.tree⟩) :: st.store,
          some st.nextId, st.nextId + 1⟩,
        [⟨oldc.tree, st.nextId⟩]⟩ := by
    simp [Jj.new_revision, hres, hwc, hold, htx, hco]
  rw [hnew]
  refine ⟨rfl, ?_, rfl⟩
  show (List.find? (fun q => q.1 == st.nextId)
      ((st.nextId, (⟨(p :: rest).map Prod.fst, p.2.tree⟩ : Jj.CommitRec)) ::
        st.store)).map Prod.snd = _
  rw [List.find?_cons_of_pos _ (by simp)]
  rfl

/-- Environment for the C3 witness: every reference resolves to commit 5,
transaction and checkout succeed. -/
def c3env : Jj.Env := ⟨fun _ => Jj.ChangeIdResolution.SingleMatch [5], false, false⟩

/-- State for the C3 witness: one commit 5 with tree 77, which is also the
working copy; fresh ids start at 9. -/
def c3st : Jj.RepoState := ⟨[(5, ⟨[], 77⟩)], some 5, 9⟩

/-- Witness for C3: creating a revision on the single parent 5 stores a new
commit 9 with parent list [5] and tree 77, and moves the working copy
to 9. -/
theorem claim_C3_witness :
    (Jj.new_revision c3env c3st ["p"]).outcome = Except.ok () ∧
    Jj.get_commit (Jj.new_revision c3env c3st ["p"]).state 9 =
      some ⟨[5], 77⟩ ∧
    (Jj.new_revision c3env c3st ["p"]).state.wc = some 9 :=
  claim_C3 c3env c3st ["p"] (5, ⟨[], 77⟩) [] 5 ⟨[], 77⟩ rfl rfl rfl rfl rfl

/-- C4: if the change reference passed to edit_revision, or any parent
reference passed to new_revision, fails to resolve, the call returns the
resolution error with the repository state unchanged and no checkout
issued — the failure happens before any transaction commit. -/
theorem claim_C4 :
    (∀ (env : Jj.Env) (st : Jj.RepoState) (ref e : String),
        Jj.resolve_change_id (env.resolve ref) = Except.error e →
        Jj.edit_revision env st ref = ⟨Except.error e, st, []⟩) ∧
    (∀ (env : Jj.Env) (st : Jj.RepoState) (refs : List String) (r e : String),
        r ∈ refs → Jj.resolve_change_id (env.resolve r) = Except.error e →
        ∃ e2, Jj.new_revision env st refs = ⟨Except.error e2, st, []⟩) := by
  constructor
  · intro env st ref e h
    simp [Jj.edit_revision, h]
  · intro env st refs r e hmem h
    obtain ⟨e2, h2⟩ := Jj.resolveParents_error_of_mem env st refs r e hmem h
    exact ⟨e2, by simp [Jj.new_revision, h2]⟩

/-- Environment for the C4 witness: no reference resolves. -/
def c4env : Jj.Env := ⟨fun _ => Jj.ChangeIdResolution.NoMatch, false, false⟩

/-- State for the C4 witness. -/
def c4st : Jj.RepoState := ⟨[(0, ⟨[], 1⟩)], some 0, 3⟩

/-- Witness for C4: both mutations abort on an unresolvable reference with
the state unchanged and no checkout. -/
theorem claim_C4_witness :
    Jj.edit_revision c4env c4st "x" =
      ⟨Except.error "Change ID not found", c4st, []⟩ ∧
    ∃ e2, Jj.new_revision c4env c4st ["x"] = ⟨Except.error e2, c4st, []⟩ :=
  ⟨claim_C4.1 c4env c4st "x" "Change ID not found" rfl,
   claim_C4.2 c4env c4st ["x"] "x" "Change ID not found" (by simp) rfl⟩

/-- Environment for C10: the textual reference resolves to one change id
with two live commits (a divergence), first commit id 1. -/
def c10env : Jj.Env := ⟨fun _ => Jj.ChangeIdResolution.SingleMatch [1, 2], false, false⟩

/-- State for C10: commits 1, 2 and the current working copy 3. -/
def c10st : Jj.RepoState :=
  ⟨[(1, ⟨[], 11⟩), (2, ⟨[], 22⟩), (3, ⟨[], 33⟩)], some 3, 7⟩

/-- C10: a reference resolving to a single change id with several live
commits is not rejected — resolve_change_id silently returns the first
commit id of the match, so edit_revision proceeds and checks out that first
commit; only an ambiguous prefix (matching more than one change id) is an
error. -/
theorem claim_C10 :
    (∀ (c : Nat) (rest : List Nat),
        Jj.resolve_change_id (Jj.ChangeIdResolution.SingleMatch (c :: rest)) =
          Except.ok c) ∧
    Jj.resolve_change_id Jj.ChangeIdResolution.AmbiguousMatch =
      Except.error "Ambiguous change ID prefix" ∧
    (Jj.edit_revision c10env c10st "d").outcome = Except.ok () ∧
    (Jj.edit_revision c10env c10st "d").state.wc = some 1 :=
  ⟨fun _ _ => rfl, rfl, rfl, rfl⟩

/-! ## Claims about the revset resolution entry point -/

/-- Environment for the C5 counterexample: parse, resolve and evaluation
succeed and the revset yields one commit, but the per-commit store lookup
fails. -/
def c5env : Revset.RevsetEnv :=
  ⟨Except.ok (), Except.ok (), Except.ok (), Except.ok [Except.ok 0],
   fun _ => Except.error "object read failed"⟩

/-- C5 counterexample: resolve_revset can return an Err — a failing store
lookup while collecting the ids propagates through the question-mark
operator instead of being reported as data.  This refutes the claim that
the function returns Ok for every repository and query. -/
theorem claim_C5_counterexample :
    Revset.resolve_revset c5env = Except.error "object read failed" := rfl

/-- C5 amended: a failing repository open/load propagates as an Err; when
the open/load succeeds, a parse, symbol-resolution, or evaluation failure
is reported as data in the error field with an empty change_ids list, an
errored iteration item (reached after well-behaved earlier items) is
reported as an "Iteration error" likewise with an empty change_ids list,
and when additionally every per-commit store lookup succeeds the call
returns Ok. -/
theorem claim_C5_amended :
    (∀ (env : Revset.RevsetEnv) (e : String),
        env.openRes = Except.error e →
        Revset.resolve_revset env = Except.error e) ∧
    (∀ env : Revset.RevsetEnv, env.openRes = Except.ok () →
        (∀ c, (env.getCommit c).isOk = true) →
        ∃ r, Revset.resolve_revset env = Except.ok r) ∧
    (∀ (env : Revset.RevsetEnv) (e : String),
        env.openRes = Except.ok () → env.parseRes = Except.error e →
        Revset.resolve_revset env =
          Except.ok ⟨[], some ("Parse error: " ++ e)⟩) ∧
    (∀ (env : Revset.RevsetEnv) (e : String),
        env.openRes = Except.ok () → env.parseRes = Except.ok () →
        env.resolveRes = Except.error e →
        Revset.resolve_revset env =
          Except.ok ⟨[], some ("Resolve error: " ++ e)⟩) ∧
    (∀ (env : Revset.RevsetEnv) (e : String),
        env.openRes = Except.ok () → env.parseRes = Except.ok () →
        env.resolveRes = Except.ok () → env.evalRes = Except.error e →
        Revset.resolve_revset env =
          Except.ok ⟨[], some ("Evaluation error: " ++ e)⟩) ∧
    (∀ (env : Revset.RevsetEnv) (e : String)
        (pre post : List (Except String Nat)),
        env.openRes = Except.ok () → env.parseRes = Except.ok () →
        env.resolveRes = Except.ok () →
        env.evalRes = Except.ok (pre ++ Except.error e :: post) →
        (∀ x ∈ pre, ∃ c s, x = Except.ok c ∧ env.getCommit c = Except.ok s) →
        Revset.resolve_revset env =
          Except.ok ⟨[], some ("Iteration error: " ++ e)⟩) := by
  refine ⟨?_, ?_, ?_, ?_, ?_, ?_⟩
  · intro env e h
    simp [Revset.resolve_revset, h]
  · intro env hopen hget
    cases hp : env.parseRes with
    | error e =>
      exact ⟨⟨[], some ("Parse error: " ++ e)⟩,
        by simp [Revset.resolve_revset, hopen, hp]⟩
    | ok u =>
      cases hr : env.resolveRes with
      | error e =>
        exact ⟨⟨[], some ("Resolve error: " ++ e)⟩,
          by simp [Revset.resolve_revset, hopen, hp, hr]⟩
      | ok u2 =>
        cases he : env.evalRes with
        | error e =>
          exact ⟨⟨[], some ("Evaluation error: " ++ e)⟩,
            by simp [Revset.resolve_revset, hopen, hp, hr, he]⟩
        | ok items =>
          obtain ⟨r, hcol⟩ := Revset.collectIds_isOk env.getCommit hget items []
          exact ⟨r, by simp [Revset.resolve_revset, hopen, hp, hr, he, hcol]⟩
  · intro env e hopen hp
    simp [Revset.resolve_revset, hopen, hp]
  · intro env e hopen hp hr
    simp [Revset.resolve_revset, hopen, hp, hr]
  · intro env e hopen hp hr he
    simp [Revset.resolve_revset, hopen, hp, hr, he]
  · intro env e pre post hopen hp hr he hpre
    have hcol := Revset.collectIds_iter_error env.getCommit e pre post hpre []
    simp [Revset.resolve_revset, hopen, hp, hr, he, hcol]

/-- Environment for the C5 witness, open/load branch: loading the
repository fails. -/
def c5openfail : Revset.RevsetEnv :=
  ⟨Except.error "workspace load failed", Except.ok (), Except.ok (),
   Except.ok [], fun _ => Except.ok "zz"⟩

/-- Environment for the C5 witness, parse branch: the open succeeds, the
query fails to parse, and every store lookup succeeds. -/
def c5okenv : Revset.RevsetEnv :=
  ⟨Except.ok (), Except.error "bad token", Except.ok (), Except.ok [],
   fun _ => Except.ok "zz"⟩

/-- Environment for the C5 witness, symbol-resolution branch. -/
def c5resenv : Revset.RevsetEnv :=
  ⟨Except.ok (), Except.ok (), Except.error "unknown symbol", Except.ok [],
   fun _ => Except.ok "zz"⟩

/-- Environment for the C5 witness, evaluation branch. -/
def c5evalenv : Revset.RevsetEnv :=
  ⟨Except.ok (), Except.ok (), Except.ok (), Except.error "store gone",
   fun _ => Except.ok "zz"⟩

/-- Environment for the C5 witness, iteration branch: one resolvable item
followed by an errored iteration item. -/
def c5iterenv : Revset.RevsetEnv :=
  ⟨Except.ok (), Except.ok (), Except.ok (),
   Except.ok [Except.ok 4, Except.error "missing index entry"],
   fun _ => Except.ok "aa"⟩

/-- Witness for the amended C5, exercising every branch at a concrete
environment. -/
theorem claim_C5_witness :
    Revset.resolve_revset c5openfail =
      Except.error "workspace load failed" ∧
    (∃ r, Revset.resolve_revset c5okenv = Except.ok r) ∧
    Revset.resolve_revset c5okenv =
      Except.ok ⟨[], some ("Parse error: " ++ "bad token")⟩ ∧
    Revset.resolve_revset c5resenv =
      Except.ok ⟨[], some ("Resolve error: " ++ "unknown symbol")⟩ ∧
    Revset.resolve_revset c5evalenv =
      Except.ok ⟨[], some ("Evaluation error: " ++ "store gone")⟩ ∧
    Revset.resolve_revset c5iterenv =
      Except.ok ⟨[], some ("Iteration error: " ++ "missing index entry")⟩ :=
  ⟨claim_C5_amended.1 c5openfail "workspace load failed" rfl,
   claim_C5_amended.2.1 c5okenv rfl (fun _ => rfl),
   claim_C5_amended.2.2.1 c5okenv "bad token" rfl rfl,
   claim_C5_amended.2.2.2.1 c5resenv "unknown symbol" rfl rfl rfl,
   claim_C5_amended.2.2.2.2.1 c5evalenv "store gone" rfl rfl rfl rfl,
   claim_C5_amended.2.2.2.2.2 c5iterenv "missing index entry"
     [Except.ok 4] [] rfl rfl rfl rfl
     (by
       intro x hx
       rw [List.mem_singleton] at hx
       subst hx
       exact ⟨4, "aa", rfl, rfl⟩)⟩

end Tatami
